import Mathlib

/-!
A verification development for `ent.hpp`, a header-only statistics engine that
computes entropy, a chi-square goodness-of-fit statistic with an approximate
p-value, the arithmetic mean, a Monte Carlo estimate of pi, and the lag-1
serial correlation coefficient of a byte buffer, under a byte-wise
(256-symbol) or bit-wise (2-symbol) sampling mode.

Modelling conventions:
* A byte buffer is a `List ℕ` whose elements are byte values (< 256);
  theorems that depend on the byte range carry it as a hypothesis.
* C++ `double` arithmetic is modelled over `ℝ` (exact real arithmetic;
  IEEE rounding and NaN are outside the model — a division with zero
  denominator, NaN in IEEE, is exposed by proving the denominator zero).
* The 64-bit `size_t` subtraction `data.size() - 5` in the pi loop is
  modelled exactly (mod 2^64, `usub`), because its wrap-around is observable
  for buffers of length 1..5.  The `unsigned long long` accumulators of the
  serial-correlation pass are modelled as unbounded naturals: for in-range
  byte buffers of realistic length they do not overflow.
* Out-of-range vector indexing (undefined behaviour in C++) is modelled by
  an `Option` result: `none` means the loop read past the end of the buffer.
-/

namespace Ent

/-- Sampling granularity: `streamOfBitsMode` off (byte, 256 symbols) or on
(bit, 2 symbols). -/
inductive Mode
  | byte
  | bit

/-- Alphabet size `A`: 256 in byte mode (`BYTE_VAL_COUNT`), 2 in bit mode. -/
def alphabet : Mode → ℕ
  | .byte => 256
  | .bit => 2

/-- Number of occurrences of bit value `v` among the 8 bits of byte `b`,
enumerated least-significant-bit first: `(byte >> bit) & 1` for `bit = 0..7`. -/
def bitOcc (b v : ℕ) : ℕ :=
  ((List.range 8).filter (fun i => (b >>> i) &&& 1 = v)).length

/-- Symbol frequency table of the buffer: occurrences of symbol `v`
(`frequencies[byte]++` in byte mode; the per-bit count in bit mode). -/
def counts : Mode → List ℕ → ℕ → ℕ
  | .byte, data, v => data.count v
  | .bit, data, v => (data.map (fun b => bitOcc b v)).sum

/-- Total number of samples: `data.size()` in byte mode,
`8.0 * data.size()` in bit mode. -/
def totalSamples : Mode → List ℕ → ℕ
  | .byte, data => data.length
  | .bit, data => 8 * data.length

/-- Value `max_entropy`: 8.0 bits per byte, or 1.0 bit per bit. -/
def maxEntropy : Mode → ℝ
  | .byte => 8
  | .bit => 1

/-- The normalized frequency `frequency /= total` of symbol `i`. -/
noncomputable def prob (mode : Mode) (data : List ℕ) (i : ℕ) : ℝ :=
  (counts mode data i : ℝ) / (totalSamples mode data : ℝ)

/-- Entropy accumulation of `calculate_entropy`: for each symbol of the
alphabet, `entropy -= frequency * log2(frequency)` when `frequency > 0`. -/
noncomputable def entropy (mode : Mode) (data : List ℕ) : ℝ :=
  ∑ i in Finset.range (alphabet mode),
    (if 0 < prob mode data i then
        -(prob mode data i * Real.logb 2 (prob mode data i))
      else 0)

/-- Compression estimate of `calculate_entropy`:
`100.0 * (1.0 - entropy / max_entropy)`. -/
noncomputable def compression (mode : Mode) (data : List ℕ) : ℝ :=
  100 * (1 - entropy mode data / maxEntropy mode)

/-- Per-symbol expectation of `calculate_chisquare`:
`8.0 * data.size() / 2.0` in bit mode, `data.size() / 256.0` in byte mode. -/
noncomputable def expectedCount : Mode → List ℕ → ℝ
  | .bit, data => 8 * (data.length : ℝ) / 2
  | .byte, data => (data.length : ℝ) / 256

/-- Statistic of `calculate_chisquare`: `diff = observed[i] - expected;
chisquare += diff * diff / expected` over the alphabet. -/
noncomputable def chisquare (mode : Mode) (data : List ℕ) : ℝ :=
  ∑ i in Finset.range (alphabet mode),
    ((counts mode data i : ℝ) - expectedCount mode data)
      * ((counts mode data i : ℝ) - expectedCount mode data)
      / expectedCount mode data

/-- Value `degree_of_freedom`: `BYTE_VAL_COUNT - 1` in byte mode, 1 in bit mode. -/
def degreeOfFreedom : Mode → ℕ
  | .byte => 256 - 1
  | .bit => 1

/-- The complementary error function called by `norm_cdf`.  It is an external
libm routine, not code of this repository, and no claim depends on its
values, so it is modelled as an unspecified fixed real function; what matters
is that the `erfc` of the source and the `erfc` in the `Φ` of the spec are
the same function. -/
noncomputable def erfc : ℝ → ℝ :=
  Classical.arbitrary (ℝ → ℝ)

/-- Function `norm_cdf`: `0.5 * erfc(-x * M_SQRT1_2)` with `M_SQRT1_2 = (√2)⁻¹`. -/
noncomputable def norm_cdf (x : ℝ) : ℝ :=
  0.5 * erfc (-x * (Real.sqrt 2)⁻¹)

/-- The p-value of `calculate_chisquare`: `z = sqrt(chisquare - degree_of_freedom)`
and `p_value = 1 - norm_cdf(z)`. -/
noncomputable def p_value (mode : Mode) (data : List ℕ) : ℝ :=
  1 - norm_cdf (Real.sqrt (chisquare mode data - (degreeOfFreedom mode : ℝ)))

/-- Function `calculate_mean`: `accumulate(data, 0.0) / data.size()`. -/
noncomputable def calculate_mean (data : List ℕ) : ℝ :=
  ((data.sum : ℕ) : ℝ) / (data.length : ℝ)

/-- Unsigned 64-bit subtraction (`size_t`): `(a - b) mod 2^64`, for `b ≤ 2^64`. -/
def usub (a b : ℕ) : ℕ :=
  (a + (2 ^ 64 - b)) % 2 ^ 64

/-- The loop of `calculate_pi`: `for (i = 0; i < bound; i += 6)` reads
`data[i] .. data[i+5]`, packs `x = data[i]<<16 | data[i+1]<<8 | data[i+2]` and
`y` likewise from the next three bytes, and counts a hit when
`x*x + y*y < 1 << 48`.  Returns `(hits, total)`, or `none` if an index falls
out of range (an out-of-bounds `std::vector` read, undefined behaviour).
The while loop is embedded structurally with an explicit iteration budget
`fuel`; exiting on exhausted fuel coincides with exiting on a failed loop
condition, and a budget of `bound` units starting at index 0 is never
exhausted early, since each iteration consumes one unit while advancing the
index by 6. -/
def piLoop (data : List ℕ) (bound : ℕ) : ℕ → ℕ → ℕ → ℕ → Option (ℕ × ℕ)
  | 0, _, hits, total => some (hits, total)
  | fuel + 1, i, hits, total =>
    if i < bound then
      if i + 5 < data.length then
        piLoop data bound fuel (i + 6)
          (if (data.getD i 0 <<< 16 ||| data.getD (i + 1) 0 <<< 8 ||| data.getD (i + 2) 0)
                * (data.getD i 0 <<< 16 ||| data.getD (i + 1) 0 <<< 8 ||| data.getD (i + 2) 0)
              + (data.getD (i + 3) 0 <<< 16 ||| data.getD (i + 4) 0 <<< 8 ||| data.getD (i + 5) 0)
                * (data.getD (i + 3) 0 <<< 16 ||| data.getD (i + 4) 0 <<< 8 ||| data.getD (i + 5) 0)
              < 2 ^ 48
            then hits + 1 else hits)
          (total + 1)
      else none
    else some (hits, total)

/-- Function `calculate_pi`: run the loop with bound `data.size() - 5` (a `size_t`
subtraction, which wraps) starting from index 0 with an adequate iteration
budget, then `pi_estimate = 4.0 * hits / total`. -/
noncomputable def calculate_pi (data : List ℕ) : Option ℝ :=
  (piLoop data (usub data.length 5) (usub data.length 5) 0 0 0).map
    (fun p => 4 * (p.1 : ℝ) / (p.2 : ℝ))

/-- Consecutive pairs `(X, Y) = (data[i-1], data[i])` of `calculate_serial_correlation`,
for `i = 1 .. data.size()-1`. -/
def scPairs (data : List ℕ) : List (ℕ × ℕ) :=
  data.zip data.tail

/-- Accumulator `sumX`: sum of the `X = data[i-1]` values. -/
def sumX (data : List ℕ) : ℕ :=
  ((scPairs data).map Prod.fst).sum

/-- Accumulator `sumY`: sum of the `Y = data[i]` values. -/
def sumY (data : List ℕ) : ℕ :=
  ((scPairs data).map Prod.snd).sum

/-- Accumulator `sumXY`: sum of the products `X * Y`. -/
def sumXY (data : List ℕ) : ℕ :=
  ((scPairs data).map (fun p => p.1 * p.2)).sum

/-- Accumulator `sumX2`: sum of the squares `X * X`. -/
def sumX2 (data : List ℕ) : ℕ :=
  ((scPairs data).map (fun p => p.1 * p.1)).sum

/-- Accumulator `sumY2`: sum of the squares `Y * Y`. -/
def sumY2 (data : List ℕ) : ℕ :=
  ((scPairs data).map (fun p => p.2 * p.2)).sum

/-- Value `n` of `calculate_serial_correlation`: `double n = data.size() - 1`
(a `size_t` subtraction, which wraps). -/
noncomputable def nSC (data : List ℕ) : ℝ :=
  (usub data.length 1 : ℝ)

/-- The numerator `n * sumXY - sumX * sumY` of the serial correlation. -/
noncomputable def scNum (data : List ℕ) : ℝ :=
  nSC data * (sumXY data : ℝ) - (sumX data : ℝ) * (sumY data : ℝ)

/-- The product `(n*sumX2 - sumX*sumX) * (n*sumY2 - sumY*sumY)` under the
square root of the serial-correlation denominator. -/
noncomputable def scDen (data : List ℕ) : ℝ :=
  (nSC data * (sumX2 data : ℝ) - (sumX data : ℝ) * (sumX data : ℝ))
    * (nSC data * (sumY2 data : ℝ) - (sumY data : ℝ) * (sumY data : ℝ))

/-- Function `calculate_serial_correlation`:
`(n*sumXY - sumX*sumY) / sqrt((n*sumX2 - sumX*sumX) * (n*sumY2 - sumY*sumY))`. -/
noncomputable def calculate_serial_correlation (data : List ℕ) : ℝ :=
  scNum data / Real.sqrt (scDen data)

/-- Configuration flags of the engine that affect computation:
`streamOfBitsMode` and `foldCaseMode` (the remaining flags only gate
printing). -/
structure Config where
  streamOfBitsMode : Bool
  foldCaseMode : Bool

/-- The sampling mode selected by `streamOfBitsMode`. -/
def modeOf (cfg : Config) : Mode :=
  if cfg.streamOfBitsMode then Mode.bit else Mode.byte

/-- The case-fold step of `calculate()`: an ASCII uppercase letter
(`isalpha && isupper`, values 65..90 in the C locale) is replaced by
`tolower`, its value plus 32. -/
def foldByte (b : ℕ) : ℕ :=
  if 65 ≤ b ∧ b ≤ 90 then b + 32 else b

/-- The buffer after the optional in-place case fold at the top of
`calculate()`. -/
def foldData (cfg : Config) (data : List ℕ) : List ℕ :=
  if cfg.foldCaseMode then data.map foldByte else data

/-- The result record: the seven scalar fields of the `Ent` object set by
`calculate()` and exposed through the getters.  `pi_estimate` is `none` when
the pi loop reads out of range (undefined behaviour in C++). -/
structure Result where
  entropy : ℝ
  compression : ℝ
  chisquare : ℝ
  p_value : ℝ
  mean : ℝ
  pi_estimate : Option ℝ
  serial_correlation : ℝ

/-- Method `calculate()`: fold the buffer in place if `foldCaseMode` is set, then
compute the five statistics (plus compression and p-value) from the folded
buffer.  Returns the final buffer together with the result record. -/
noncomputable def calculate (cfg : Config) (data : List ℕ) : List ℕ × Result :=
  (foldData cfg data,
    { entropy := entropy (modeOf cfg) (foldData cfg data)
      compression := compression (modeOf cfg) (foldData cfg data)
      chisquare := chisquare (modeOf cfg) (foldData cfg data)
      p_value := p_value (modeOf cfg) (foldData cfg data)
      mean := calculate_mean (foldData cfg data)
      pi_estimate := calculate_pi (foldData cfg data)
      serial_correlation := calculate_serial_correlation (foldData cfg data) })

/-- Modelled from the spec, for refinement comparison: the `x` coordinate of
the `k`-th consecutive non-overlapping 6-byte group,
`byte0<<16 | byte1<<8 | byte2` of bytes `6k, 6k+1, 6k+2`. -/
def xCoord (data : List ℕ) (k : ℕ) : ℕ :=
  data.getD (6 * k) 0 <<< 16 ||| data.getD (6 * k + 1) 0 <<< 8 ||| data.getD (6 * k + 2) 0

/-- Modelled from the spec, for refinement comparison: the `y` coordinate of
the `k`-th group, packed likewise from bytes `6k+3, 6k+4, 6k+5`. -/
def yCoord (data : List ℕ) (k : ℕ) : ℕ :=
  data.getD (6 * k + 3) 0 <<< 16 ||| data.getD (6 * k + 4) 0 <<< 8 ||| data.getD (6 * k + 5) 0

/-- Modelled from the spec, for refinement comparison: group `k` counts as a
hit exactly when `x² + y² < 2^48`. -/
def hitGroup (data : List ℕ) (k : ℕ) : Bool :=
  decide (xCoord data k * xCoord data k + yCoord data k * yCoord data k < 2 ^ 48)

/-- Modelled from the spec, for refinement comparison: the standard normal
CDF `Φ(x) = 0.5·erfc(−x/√2)`. -/
noncomputable def Phi (x : ℝ) : ℝ :=
  0.5 * erfc (-x / Real.sqrt 2)

/-! Helper lemmas. -/

/-- Unsigned subtraction agrees with truncated subtraction inside the 64-bit
range. -/
lemma usub_eq_sub (a b : ℕ) (hb : b ≤ a) (ha : a - b < 2 ^ 64) (hb64 : b ≤ 2 ^ 64) :
    usub a b = a - b := by
  have h1 : a + (2 ^ 64 - b) = (a - b) + 2 ^ 64 := by omega
  rw [usub, h1, Nat.add_mod_right]
  exact Nat.mod_eq_of_lt ha

/-- The `norm_cdf` of the source equals the `Φ` of the spec. -/
lemma norm_cdf_eq_Phi (x : ℝ) : norm_cdf x = Phi x := by
  rw [norm_cdf, Phi, div_eq_mul_inv]

/-- The per-symbol chi-square expectation is the total sample count divided by
the alphabet size. -/
lemma expectedCount_eq (mode : Mode) (data : List ℕ) :
    expectedCount mode data = (totalSamples mode data : ℝ) / (alphabet mode : ℝ) := by
  cases mode
  · simp [expectedCount, totalSamples, alphabet]
  · simp only [expectedCount, totalSamples, alphabet]
    push_cast
    ring

/-- The degrees of freedom equal the alphabet size minus one. -/
lemma degreeOfFreedom_eq (mode : Mode) : degreeOfFreedom mode = alphabet mode - 1 := by
  cases mode <;> rfl

/-- Case folding is idempotent on a single byte. -/
lemma foldByte_idem (b : ℕ) : foldByte (foldByte b) = foldByte b := by
  unfold foldByte
  split_ifs <;> omega

/-- Case folding is idempotent on a buffer. -/
lemma foldData_idem (cfg : Config) (data : List ℕ) :
    foldData cfg (foldData cfg data) = foldData cfg data := by
  unfold foldData
  cases hc : cfg.foldCaseMode
  · simp
  · have hcomp : foldByte ∘ foldByte = foldByte := funext foldByte_idem
    simp [List.map_map, hcomp]

/-- One running iteration of the pi loop, phrased at group index `k`: with
the loop condition true and all six accesses in range, it consumes one unit
of budget, bumps `hits` exactly when group `k` is a spec-side hit, and moves
to the next group. -/
lemma piLoop_step (data : List ℕ) (bound f k hits total : ℕ)
    (hi : 6 * k < bound) (hlen : 6 * k + 5 < data.length) :
    piLoop data bound (f + 1) (6 * k) hits total
      = piLoop data bound f (6 * k + 6)
          (if hitGroup data k then hits + 1 else hits) (total + 1) := by
  rw [piLoop, if_pos hi, if_pos hlen]
  simp only [hitGroup, xCoord, yCoord, decide_eq_true_eq]

/-- Characterization of the pi loop on a well-formed bound `length - 5`: from
group index `k` with `m` groups remaining and at least `m` units of budget it
returns, without any out-of-range access, the accumulators plus the
spec-side hit count and group count over groups `k, k+1, ..., k+m-1`. -/
lemma piLoop_count (data : List ℕ) (h6 : 6 ≤ data.length) :
    ∀ m fuel k hits total, k + m = data.length / 6 → m ≤ fuel →
      piLoop data (data.length - 5) fuel (6 * k) hits total
        = some (hits + (List.range' k m).countP (hitGroup data), total + m) := by
  intro m
  induction m with
  | zero =>
    intro fuel k hits total hk _
    cases fuel with
    | zero => simp [piLoop]
    | succ f =>
      rw [piLoop, if_neg (by omega)]
      simp
  | succ m ih =>
    intro fuel k hits total hk hf
    obtain ⟨f, rfl⟩ : ∃ f, fuel = f + 1 := ⟨fuel - 1, by omega⟩
    rw [piLoop_step data _ f k hits total (by omega) (by omega)]
    rw [show 6 * k + 6 = 6 * (k + 1) from by ring]
    rw [ih f (k + 1) _ _ (by omega) (by omega)]
    rw [List.range'_succ, List.countP_cons]
    split_ifs with hg
    · simp only [Option.some.injEq, Prod.mk.injEq]
      exact ⟨by omega, by omega⟩
    · simp only [Option.some.injEq, Prod.mk.injEq]
      exact ⟨by omega, by omega⟩

/-- When the loop bound leaves five bytes of headroom, every access of the pi
loop is in range and the loop yields a value, whatever the budget. -/
lemma piLoop_isSome (data : List ℕ) (bound : ℕ) (hb : bound + 5 ≤ data.length) :
    ∀ fuel i hits total, (piLoop data bound fuel i hits total).isSome = true := by
  intro fuel
  induction fuel with
  | zero =>
    intro i hits total
    rfl
  | succ f ih =>
    intro i hits total
    by_cases hi : i < bound
    · rw [piLoop, if_pos hi, if_pos (by omega)]
      exact ih _ _ _
    · rw [piLoop, if_neg hi]
      rfl

/-! Claim theorems. -/

/-- Claim C1: for every non-empty buffer and each sampling mode, the entropy
computed by `calculate_entropy` equals `-Σ p_i·log2(p_i)` over exactly the
symbols with `p_i > 0`, where `p_i` is the symbol count divided by the total
sample count, and the compression percentage equals
`100 × (1 − entropy / max_entropy)`. -/
theorem c1_entropy_and_compression_formula (mode : Mode) (data : List ℕ)
    (_hne : data ≠ []) :
    entropy mode data
      = -(∑ i in (Finset.range (alphabet mode)).filter
            (fun i => 0 < prob mode data i),
          prob mode data i * Real.logb 2 (prob mode data i))
    ∧ compression mode data = 100 * (1 - entropy mode data / maxEntropy mode) := by
  refine ⟨?_, rfl⟩
  rw [entropy, Finset.sum_filter, ← Finset.sum_neg_distrib]
  refine Finset.sum_congr rfl fun i _ => ?_
  split_ifs <;> simp

/-- Witness for C1 at the one-byte buffer `[0]` in byte mode. -/
theorem c1_entropy_and_compression_formula_witness :
    ([0] : List ℕ) ≠ []
    ∧ (entropy Mode.byte [0]
        = -(∑ i in (Finset.range (alphabet Mode.byte)).filter
              (fun i => 0 < prob Mode.byte [0] i),
            prob Mode.byte [0] i * Real.logb 2 (prob Mode.byte [0] i))
      ∧ compression Mode.byte [0]
          = 100 * (1 - entropy Mode.byte [0] / maxEntropy Mode.byte)) :=
  ⟨by decide, c1_entropy_and_compression_formula Mode.byte [0] (by decide)⟩

/-- Claim C2: for every non-empty buffer and each sampling mode, the
chi-square statistic equals `Σ (observed_i − expected)² / expected` with
`expected = total_samples / A`, and the p-value equals `1 − Φ(z)` with
`z = sqrt(chisquare − df)`, `df = A − 1`, and `Φ(x) = 0.5·erfc(−x/√2)`. -/
theorem c2_chisquare_and_p_value_formula (mode : Mode) (data : List ℕ)
    (_hne : data ≠ []) :
    chisquare mode data
      = ∑ i in Finset.range (alphabet mode),
          ((counts mode data i : ℝ)
              - (totalSamples mode data : ℝ) / (alphabet mode : ℝ)) ^ 2
            / ((totalSamples mode data : ℝ) / (alphabet mode : ℝ))
    ∧ p_value mode data
      = 1 - Phi (Real.sqrt
          (chisquare mode data - ((alphabet mode - 1 : ℕ) : ℝ))) := by
  constructor
  · rw [chisquare]
    refine Finset.sum_congr rfl fun i _ => ?_
    rw [expectedCount_eq, pow_two]
  · rw [p_value, norm_cdf_eq_Phi, degreeOfFreedom_eq]

/-- Witness for C2 at the one-byte buffer `[0]` in bit mode. -/
theorem c2_chisquare_and_p_value_formula_witness :
    ([0] : List ℕ) ≠ []
    ∧ (chisquare Mode.bit [0]
        = ∑ i in Finset.range (alphabet Mode.bit),
            ((counts Mode.bit [0] i : ℝ)
                - (totalSamples Mode.bit [0] : ℝ) / (alphabet Mode.bit : ℝ)) ^ 2
              / ((totalSamples Mode.bit [0] : ℝ) / (alphabet Mode.bit : ℝ))
      ∧ p_value Mode.bit [0]
        = 1 - Phi (Real.sqrt
            (chisquare Mode.bit [0] - ((alphabet Mode.bit - 1 : ℕ) : ℝ)))) :=
  ⟨by decide, c2_chisquare_and_p_value_formula Mode.bit [0] (by decide)⟩

/-- Claim C3: for every buffer of `size_t` length `N ≥ 6`, the pi loop
processes exactly `⌊N/6⌋` consecutive non-overlapping 6-byte groups with no
out-of-range access, a group is a hit exactly when `x² + y² < 2^48` for the
spec-side big-endian coordinates, and `pi_estimate = 4 × hits / ⌊N/6⌋`. -/
theorem c3_pi_monte_carlo_groups (data : List ℕ) (h6 : 6 ≤ data.length)
    (hL : data.length < 2 ^ 64) :
    piLoop data (usub data.length 5) (usub data.length 5) 0 0 0
      = some ((List.range (data.length / 6)).countP (hitGroup data),
          data.length / 6)
    ∧ calculate_pi data
      = some (4 * (((List.range (data.length / 6)).countP (hitGroup data) : ℕ) : ℝ)
          / ((data.length / 6 : ℕ) : ℝ)) := by
  have hu : usub data.length 5 = data.length - 5 :=
    usub_eq_sub _ _ (by omega) (by omega) (by norm_num)
  have hmain : piLoop data (usub data.length 5) (usub data.length 5) 0 0 0
      = some ((List.range (data.length / 6)).countP (hitGroup data),
          data.length / 6) := by
    rw [hu]
    have h0 := piLoop_count data h6 (data.length / 6) (data.length - 5) 0 0 0
      (by omega) (by omega)
    simpa [List.range_eq_range'] using h0
  refine ⟨hmain, ?_⟩
  unfold calculate_pi
  rw [hmain]
  rfl

/-- Witness for C3 at the six-byte buffer of zeros (one group, one hit). -/
theorem c3_pi_monte_carlo_groups_witness :
    6 ≤ ([0, 0, 0, 0, 0, 0] : List ℕ).length
    ∧ ([0, 0, 0, 0, 0, 0] : List ℕ).length < 2 ^ 64
    ∧ (piLoop [0, 0, 0, 0, 0, 0] (usub ([0, 0, 0, 0, 0, 0] : List ℕ).length 5)
          (usub ([0, 0, 0, 0, 0, 0] : List ℕ).length 5) 0 0 0
        = some ((List.range (([0, 0, 0, 0, 0, 0] : List ℕ).length / 6)).countP
            (hitGroup [0, 0, 0, 0, 0, 0]),
            ([0, 0, 0, 0, 0, 0] : List ℕ).length / 6)
      ∧ calculate_pi [0, 0, 0, 0, 0, 0]
        = some (4 * (((List.range (([0, 0, 0, 0, 0, 0] : List ℕ).length / 6)).countP
              (hitGroup [0, 0, 0, 0, 0, 0]) : ℕ) : ℝ)
            / ((([0, 0, 0, 0, 0, 0] : List ℕ).length / 6 : ℕ) : ℝ))) :=
  ⟨by decide, by decide,
    c3_pi_monte_carlo_groups [0, 0, 0, 0, 0, 0] (by decide) (by decide)⟩

/-- Claim C4 (code bug): on the empty buffer, `calculate()` does not fail
fast; it produces a result record whose mean is the division of 0 by the
buffer length 0 (NaN in IEEE arithmetic), and the chi-square expectation is
likewise 0, so every chi-square term divides by zero. -/
theorem c4_empty_buffer_reaches_division_by_zero :
    ([] : List ℕ).length = 0
    ∧ (calculate ⟨false, false⟩ []).2.mean = (0 : ℝ) / (0 : ℝ)
    ∧ expectedCount Mode.byte [] = 0 := by
  refine ⟨rfl, ?_, ?_⟩
  · show calculate_mean (foldData ⟨false, false⟩ []) = (0 : ℝ) / (0 : ℝ)
    norm_num [calculate_mean, foldData]
  · norm_num [expectedCount]

/-- Claim C5 (code bug): on a buffer of fewer than 6 bytes there is no
reported condition.  For length 1 the unsigned loop bound `size - 5` wraps
around and the first iteration reads out of range (undefined behaviour); for
length 5 the loop runs zero times and the estimate is silently `4·0/0`. -/
theorem c5_short_buffer_out_of_bounds_or_zero_division :
    calculate_pi [0] = none
    ∧ calculate_pi (List.replicate 5 0) = some (4 * (0 : ℝ) / (0 : ℝ)) := by
  constructor
  · have h : piLoop [0] (usub ([0] : List ℕ).length 5)
        (usub ([0] : List ℕ).length 5) 0 0 0 = none := by decide
    unfold calculate_pi
    rw [h]
    rfl
  · have h : piLoop (List.replicate 5 0) (usub (List.replicate 5 0 : List ℕ).length 5)
        (usub (List.replicate 5 0 : List ℕ).length 5) 0 0 0 = some (0, 0) := by decide
    unfold calculate_pi
    rw [h]
    norm_num

/-- Counterexample to claim C7: with the fold-case flag set, `calculate()`
mutates the buffer — the uppercase byte 65 becomes 97. -/
theorem c7_fold_case_mutates_buffer :
    (calculate ⟨false, true⟩ [65]).1 = [97]
    ∧ ([97] : List ℕ) ≠ [65] := by
  constructor
  · show foldData ⟨false, true⟩ [65] = [97]
    decide
  · decide

/-- Claim C7 as amended: `calculate()` leaves the byte buffer unchanged for
every buffer and sampling mode whenever the fold-case flag is off; when the
flag is on it first rewrites every ASCII uppercase byte in place to its
lowercase counterpart. -/
theorem c7_amended_buffer_unchanged_without_fold (cfg : Config) (data : List ℕ)
    (h : cfg.foldCaseMode = false) :
    (calculate cfg data).1 = data := by
  show foldData cfg data = data
  simp [foldData, h]

/-- Witness for the amended C7 at the buffer `[65]` with both flags off. -/
theorem c7_amended_buffer_unchanged_witness :
    (Config.mk false false).foldCaseMode = false
    ∧ (calculate ⟨false, false⟩ [65]).1 = [65] :=
  ⟨rfl, c7_amended_buffer_unchanged_without_fold ⟨false, false⟩ [65] rfl⟩

/-- Claim C8: for every non-empty buffer the mean computed by `calculate()`
is the same in bit mode and byte mode (for any fixed fold-case flag), and
with folding off it is the arithmetic mean of the raw byte values. -/
theorem c8_mean_mode_invariant (b1 b2 fc : Bool) (data : List ℕ)
    (_hne : data ≠ []) :
    (calculate ⟨b1, fc⟩ data).2.mean = (calculate ⟨b2, fc⟩ data).2.mean
    ∧ (calculate ⟨b1, false⟩ data).2.mean
        = ((data.sum : ℕ) : ℝ) / (data.length : ℝ) :=
  ⟨rfl, rfl⟩

/-- Witness for C8 at the buffer `[3]`, bit mode versus byte mode. -/
theorem c8_mean_mode_invariant_witness :
    ([3] : List ℕ) ≠ []
    ∧ ((calculate ⟨true, false⟩ [3]).2.mean = (calculate ⟨false, false⟩ [3]).2.mean
      ∧ (calculate ⟨true, false⟩ [3]).2.mean
          = ((([3] : List ℕ).sum : ℕ) : ℝ) / (([3] : List ℕ).length : ℝ)) :=
  ⟨by decide, c8_mean_mode_invariant true false false [3] (by decide)⟩

/-- Claim C9: with a fixed configuration, invoking `calculate()` a second
time on the buffer left by the first invocation yields an identical result
record (the case fold is idempotent and every statistic is a pure function of
the folded buffer). -/
theorem c9_calculate_idempotent (cfg : Config) (data : List ℕ) :
    (calculate cfg (calculate cfg data).1).2 = (calculate cfg data).2
    ∧ (calculate cfg (calculate cfg data).1).1 = (calculate cfg data).1 := by
  have hfold : foldData cfg (foldData cfg data) = foldData cfg data :=
    foldData_idem cfg data
  constructor
  · show (calculate cfg (foldData cfg data)).2 = (calculate cfg data).2
    unfold calculate
    rw [hfold]
  · show (calculate cfg (foldData cfg data)).1 = (calculate cfg data).1
    unfold calculate
    rw [hfold]

/-- Counterexample to claim C10: on the non-empty two-byte buffer `[0, 0]`
the pi loop bound `size - 5` wraps around in unsigned arithmetic and the
first iteration attempts to read index 5, out of range — the embedded
computation yields `none`. -/
theorem c10_index_out_of_range_on_short_buffer :
    calculate_pi [0, 0] = none := by
  have h : piLoop [0, 0] (usub ([0, 0] : List ℕ).length 5)
      (usub ([0, 0] : List ℕ).length 5) 0 0 0 = none := by decide
  unfold calculate_pi
  rw [h]
  rfl

/-- Claim C10 as amended: for every buffer of length at least 5, every index
read by the pi loop is strictly below the buffer length, so the embedded
computation never returns `none`; for non-empty buffers of length 1 to 4 the
wrapped bound makes the loop read out of range. -/
theorem c10_amended_index_safety_from_length_five (data : List ℕ)
    (h5 : 5 ≤ data.length) :
    calculate_pi data ≠ none := by
  have hb : usub data.length 5 + 5 ≤ data.length := by
    unfold usub
    omega
  have hs := piLoop_isSome data (usub data.length 5) hb (usub data.length 5) 0 0 0
  unfold calculate_pi
  rcases Option.isSome_iff_exists.mp hs with ⟨r, hr⟩
  rw [hr]
  simp

/-- Witness for the amended C10 at the five-byte zero buffer. -/
theorem c10_amended_index_safety_witness :
    5 ≤ (List.replicate 5 0 : List ℕ).length
    ∧ calculate_pi (List.replicate 5 0) ≠ none :=
  ⟨by decide, c10_amended_index_safety_from_length_five (List.replicate 5 0) (by decide)⟩

end Ent
